import Mathlib

/-!
Verification development for the import-sorting engine of `isort.py` (v2.6.0).

The engine is shallowly embedded: every definition below is translated from
`src/isort.py`.  Python strings are modelled as Lean `String`s and character
scanning works over `String.data`; Python's `'\n'.join` of a list of lines is
`joinNl`; Python `set`s and `dict`s (whose iteration order is irrelevant to the
properties proved here, because every iterated collection is passed through a
sort with a key that has no ties in the inputs considered) are modelled as
insertion-ordered duplicate-free lists; loops that consume their input are
written with explicit structural recursion or a fuel argument that is always
supplied with more fuel than the loop can consume.  The file-system probe used
by `place_module` (the loop over `PYTHONPATH`) is an external collaborator and
is injected as a parameter `pm : String → Option Nat`, as §9 of the design
notes prescribes; every concrete evaluation uses the probe that finds nothing.
-/

namespace Isort

/-- Lowercases a string character-wise, modelling Python's `str.lower()` on the
ASCII module names the engine manipulates. -/
def strLower (s : String) : String := ⟨s.data.map Char.toLower⟩

/-- Tests whether `p` is a leading substring of `s`, modelling Python's
`s.startswith(p)`. -/
def strHasPrefix (p s : String) : Bool := p.data.isPrefixOf s.data

/-- Tests whether `p` is a contiguous piece of `s`. -/
def listIsInfix (p : List Char) : List Char → Bool
  | [] => p.isPrefixOf []
  | c :: cs => p.isPrefixOf (c :: cs) || listIsInfix p cs

/-- Tests whether `p` occurs inside `s`, modelling Python's `p in s`. -/
def strContains (p s : String) : Bool := listIsInfix p.data s.data

/-- Models `_strip_comments` of isort.py: the line is truncated at the first
`#` (the function's warning print is I/O and is not modelled). -/
def stripComments (line : String) : String := ⟨line.data.takeWhile (fun c => c ≠ '#')⟩

/-- Models Python's `line.strip().endswith(c)` for a one-character suffix `c`:
the last character of the line that is not whitespace is `c`. -/
def stripEndsWith (s : String) (c : Char) : Bool :=
  match s.data.reverse.dropWhile Char.isWhitespace with
  | [] => false
  | x :: _ => x = c

/-- Models Python's `line.strip() == ''`: the line is entirely whitespace. -/
def isBlankStr (s : String) : Bool := s.data.all Char.isWhitespace

/-- Models the character loop of `SortImports._parse` (isort.py lines 347-364)
that tracks whether the scanner is inside a string literal.  The state is
`none` (Python `in_quote = False`) or `some delim` with `delim` the delimiter's
characters.  A backslash skips the next character; inside a quote a match of
the delimiter (compared by its exact length) leaves the quote and advances one
character; outside, a triple quote enters with a three-character delimiter and
skips two extra characters, a single quote enters with a one-character
delimiter, and `#` stops the scan of the line. -/
def scanChars : Option (List Char) → List Char → Option (List Char)
  | q, [] => q
  | q, '\\' :: [] => q
  | q, '\\' :: _ :: cs => scanChars q cs
  | some qs, c :: cs =>
      if (c :: cs).take qs.length = qs then scanChars none cs else scanChars (some qs) cs
  | none, c :: cs =>
      if c = '"' ∨ c = '\'' then
        match cs with
        | c2 :: c3 :: cs2 =>
            if [c, c2, c3] = ['"', '"', '"'] ∨ [c, c2, c3] = ['\'', '\'', '\''] then
              scanChars (some [c, c2, c3]) cs2
            else scanChars (some [c]) (c2 :: c3 :: cs2)
        | short => scanChars (some [c]) short
      else if c = '#' then none
      else scanChars none cs

/-- Replaces every occurrence of `pat` (never empty in the engine) by `rep`,
left to right without overlap, modelling Python's `str.replace`.  The fuel is
always called with the length of the scanned list, which the loop never
exhausts because each step consumes at least one character. -/
def replaceAux (pat rep : List Char) : Nat → List Char → List Char
  | _, [] => []
  | 0, cs => cs
  | f + 1, c :: cs =>
      if pat.isPrefixOf (c :: cs) then rep ++ replaceAux pat rep f ((c :: cs).drop pat.length)
      else c :: replaceAux pat rep f cs

/-- Models Python's `s.replace(pat, rep)`. -/
def strReplace (s pat rep : String) : String :=
  ⟨replaceAux pat.data rep.data s.data.length s.data⟩

/-- Splits on runs of whitespace discarding empty pieces, modelling Python's
`str.split()` with no argument.  `cur` holds the characters of the word being
read, in reverse. -/
def splitWsGo (cur : List Char) : List Char → List String
  | [] => if cur = [] then [] else [⟨cur.reverse⟩]
  | c :: cs =>
      if c.isWhitespace then
        if cur = [] then splitWsGo [] cs else ⟨cur.reverse⟩ :: splitWsGo [] cs
      else splitWsGo (c :: cur) cs

/-- Models the token extraction of `SortImports._parse` (isort.py lines
384-389): the substring `_import` is protected, the syntax tokens are replaced
by blanks, the protection is undone and the result is split on whitespace. -/
def tokenize (stmt : String) : List String :=
  let s1 := strReplace stmt "_import" "[[i]]"
  let s2 := ["\\", "(", ")", ",", "from ", "import "].foldl
    (fun acc pat => strReplace acc pat " ") s1
  let s3 := strReplace s2 "[[i]]" "_import"
  splitWsGo [] s3.data

/-- Splits a text into its physical lines, modelling Python's
`file_contents.split('\n')`: the empty text gives one empty line and a
trailing newline gives a trailing empty line. -/
def splitNlGo (cur : List Char) : List Char → List String
  | [] => [⟨cur.reverse⟩]
  | c :: cs => if c = '\n' then ⟨cur.reverse⟩ :: splitNlGo [] cs else splitNlGo (c :: cur) cs

/-- Models `'\n'.join(lines)`. -/
def joinNl : List String → String
  | [] => ""
  | [x] => x
  | x :: y :: xs => x ++ "\n" ++ joinNl (y :: xs)

/-- The recognized configuration options of isort.py's `default` dictionary
(lines 70-107) that the engine itself reads. -/
structure Config where
  force_to_top : List String
  line_length : Nat
  known_standard_library : List String
  known_third_party : List String
  known_first_party : List String
  forced_separate : List String
  length_sort : Bool
  add_imports : List String
  remove_imports : List String
  default_section : String

/-- The `default` configuration dictionary of isort.py, with its full
`known_standard_library` table. -/
def defaultConfig : Config where
  force_to_top := []
  line_length := 80
  known_standard_library :=
    ["abc", "anydbm", "argparse", "array", "asynchat", "asyncore",
     "atexit", "base64", "BaseHTTPServer", "bisect", "bz2",
     "calendar", "cgitb", "cmd", "codecs", "collections", "commands",
     "compileall", "ConfigParser", "contextlib", "Cookie", "copy",
     "cPickle", "cProfile", "cStringIO", "csv", "datetime", "dbhash",
     "dbm", "decimal", "difflib", "dircache", "dis", "doctest",
     "dumbdbm", "EasyDialogs", "errno", "exceptions", "filecmp",
     "fileinput", "fnmatch", "fractions", "functools", "gc", "gdbm",
     "getopt", "getpass", "gettext", "glob", "grp", "gzip",
     "hashlib", "heapq", "hmac", "imaplib", "imp", "inspect",
     "itertools", "json", "linecache", "locale", "logging",
     "mailbox", "math", "mhlib", "mmap", "multiprocessing",
     "operator", "optparse", "os", "pdb", "pickle", "pipes",
     "pkgutil", "platform", "plistlib", "pprint", "profile",
     "pstats", "pwd", "pyclbr", "pydoc", "Queue", "random", "re",
     "readline", "resource", "rlcompleter", "robotparser", "sched",
     "select", "shelve", "shlex", "shutil", "signal",
     "SimpleXMLRPCServer", "site", "sitecustomize", "smtpd",
     "smtplib", "socket", "SocketServer", "sqlite3", "string",
     "StringIO", "struct", "subprocess", "sys", "sysconfig",
     "tabnanny", "tarfile", "tempfile", "textwrap", "threading",
     "time", "timeit", "trace", "traceback", "unittest", "urllib",
     "urllib2", "urlparse", "usercustomize", "uuid", "warnings",
     "weakref", "webbrowser", "whichdb", "xml", "xmlrpclib",
     "zipfile", "zipimport", "zlib"]
  known_third_party := ["google.appengine.api"]
  known_first_party := []
  forced_separate := []
  length_sort := false
  add_imports := []
  remove_imports := []
  default_section := "FIRSTPARTY"

/-- A section key: `Sum.inl n` is the `n`-th standard section in the fixed
order `FUTURE, STDLIB, THIRDPARTY, FIRSTPARTY, LOCALFOLDER` (the integers of
isort.py's `SECTIONS` named tuple); `Sum.inr s` is the forced-separate section
named `s` (isort.py uses the configured string itself as the key). -/
abbrev SectionKey := Sum Nat String

/-- The names of the standard sections, modelling `SECTION_NAMES`. -/
def sectionNamesL : List String :=
  ["FUTURE", "STDLIB", "THIRDPARTY", "FIRSTPARTY", "LOCALFOLDER"]

/-- Models `SECTION_NAMES.index(name)` (the `default_section` lookup); the
engine only calls it with one of the five standard names. -/
def sectionIndexOf (n : String) : Nat :=
  (sectionNamesL.findIdx? (fun s => s = n)).getD sectionNamesL.length

/-- Models the `firstPart` computation of `place_module` (isort.py lines
200-204): `index = moduleName.find('.')` gives -1 when there is no dot, and
`if index:` is true for -1, so a dotless name's "first part" is the name
without its last character; a leading dot (index 0) gives `None`; otherwise
the part before the first dot. -/
def firstPartOf (m : String) : Option String :=
  match m.data.findIdx? (fun c => c = '.') with
  | none => some ⟨m.data.dropLast⟩
  | some 0 => none
  | some k => some ⟨m.data.take k⟩

/-- Tests `x in table` where `x` may be Python `None` (which is in no table of
strings). -/
def optMem (x : Option String) (table : List String) : Bool :=
  match x with
  | none => false
  | some s => table.contains s

/-- Models `SortImports.place_module` (isort.py lines 192-236).  The loop over
`PYTHONPATH` probing the file system is the injected collaborator `pm`: it
returns the standard-section index the probe would classify the module into,
or `none` when no path entry matches, in which case the configured
`default_section` applies. -/
def placeModule (cfg : Config) (pm : String → Option Nat) (moduleName : String) : SectionKey :=
  if strHasPrefix "." moduleName then Sum.inl 4
  else
    let fp := firstPartOf moduleName
    match cfg.forced_separate.find? (fun fs => strHasPrefix fs moduleName) with
    | some fs => Sum.inr fs
    | none =>
      if moduleName = "__future__" ∨ fp = some "__future__" then Sum.inl 0
      else if cfg.known_standard_library.contains moduleName ∨
              optMem fp cfg.known_standard_library then Sum.inl 1
      else if cfg.known_third_party.contains moduleName ∨
              optMem fp cfg.known_third_party then Sum.inl 2
      else if cfg.known_first_party.contains moduleName ∨
              optMem fp cfg.known_first_party then Sum.inl 3
      else
        match pm moduleName with
        | some n => Sum.inl n
        | none => Sum.inl (sectionIndexOf cfg.default_section)

/-- Models `_module_key` (isort.py lines 426-429): the name is lowercased,
prefixed with `A` when it is found in `force_to_top` and `B` otherwise, and,
when `length_sort` is set, the decimal string of its length and a colon are
put before it. -/
def moduleKey (cfg : Config) (module : String) : String :=
  let m := strLower module
  (if cfg.force_to_top.contains m then "A" else "B") ++
    (if cfg.length_sort then toString m.length ++ ":" ++ m else m)

/-- Inserts `a` into a list before the first element `b` with `le a b`;
together with `sortAsc` this is a stable ascending sort. -/
def insertAsc (le : String → String → Bool) (a : String) : List String → List String
  | [] => [a]
  | b :: bs => if le a b then a :: b :: bs else b :: insertAsc le a bs

/-- Stable ascending insertion sort.  Python's `sorted` is a stable ascending
sort by key; a stable sort's output is determined by the key order alone, so
this models `sorted(modules, key=lambda key: _module_key(key, config))`
exactly. -/
def sortAsc (le : String → String → Bool) (l : List String) : List String :=
  l.foldr (insertAsc le) []

/-- Lexicographic comparison of character lists by code point, modelling how
Python compares the key strings `sorted` is given: a prefix is not greater,
and the first differing character decides. -/
def listLe : List Char → List Char → Bool
  | [], _ => true
  | _ :: _, [] => false
  | a :: as, b :: bs => if a = b then listLe as bs else decide (a.toNat < b.toNat)

/-- String comparison by code points, Python's `<=` on the key strings. -/
def strLeB (a b : String) : Bool := listLe a.data b.data

/-- The comparison `sorted` performs: keys compared as strings. -/
def keyLe (cfg : Config) (a b : String) : Bool := strLeB (moduleKey cfg a) (moduleKey cfg b)

/-- Models `sorted(l, key=lambda key: _module_key(key, config))`. -/
def sortedByKey (cfg : Config) (l : List String) : List String :=
  sortAsc (keyLe cfg) l

/-- The statement type `_import_type` returns: `'straight'` or `'from'`. -/
inductive ImpType where
  | straight : ImpType
  | fromImp : ImpType
deriving DecidableEq

/-- Models `_import_type` (isort.py lines 415-423): a line holding
`isort:skip` has no type; a line starting with `import ` is straight; a line
starting with `from ` that contains `import` is a from-import. -/
def importTypeOf (line : String) : Option ImpType :=
  if strContains "isort:skip" line then none
  else if strHasPrefix "import " line then some .straight
  else if strHasPrefix "from " line ∧ strContains "import" line then some .fromImp
  else none

/-- A section's two buckets (isort.py line 153): the straight set and the
from-map, both as insertion-ordered duplicate-free lists. -/
structure Bucket where
  straight : List String
  fromMap : List (String × List String)

/-- The empty bucket. -/
def emptyBucket : Bucket := ⟨[], []⟩

/-- The aggregate `self.imports`: a bucket for every section key. -/
def Agg := SectionKey → Bucket

/-- Updates the aggregate at one section key. -/
def updateAgg (agg : Agg) (k : SectionKey) (f : Bucket → Bucket) : Agg :=
  fun k2 => if k2 = k then f (agg k2) else agg k2

/-- Models `set.add`: appended unless already present. -/
def setAdd (l : List String) (x : String) : List String :=
  if l.contains x then l else l ++ [x]

/-- Models `set(toks)`. -/
def setList (toks : List String) : List String := toks.foldl setAdd []

/-- Models the from-map update of `_parse` (isort.py lines 399-408): an
existing non-empty entry is unioned with the new symbols (`root.get(...,
False)` is falsy on an empty set, in which case the entry is overwritten by
`set(imports)`, which is the same union). -/
def fromMapAdd (fm : List (String × List String)) (m : String) (syms : List String) :
    List (String × List String) :=
  match (fm.find? (fun p => p.1 = m)).map Prod.snd with
  | some s =>
      if !s.isEmpty then fm.map (fun p => if p.1 = m then (m, syms.foldl setAdd s) else p)
      else fm.map (fun p => if p.1 = m then (m, setList syms) else p)
  | none => fm ++ [(m, setList syms)]

/-- Models the straight branch of `_parse` (isort.py lines 409-412): every
token is a module of its own, classified separately and added to that
section's straight set. -/
def addStraightTokens (cfg : Config) (pm : String → Option Nat) (agg : Agg)
    (toks : List String) : Agg :=
  toks.foldl
    (fun a m => updateAgg a (placeModule cfg pm m) (fun b => { b with straight := setAdd b.straight m }))
    agg

/-- Updates the alias map `self.as_map` at one key (Python dict assignment). -/
def updateAssoc (am : List (String × String)) (k v : String) : List (String × String) :=
  if am.any (fun p => p.1 = k) then am.map (fun p => if p.1 = k then (k, v) else p)
  else am ++ [(k, v)]

/-- Looks a key up in the alias map, modelling `self.as_map.get(key, False)`
(`none` is the falsy miss). -/
def lookupAssoc (am : List (String × String)) (k : String) : Option String :=
  (am.find? (fun p => p.1 = k)).map Prod.snd

/-- Models the body of the `while 'as' in imports` loop of `_parse` (isort.py
lines 391-398).  Each turn finds the first `as`; the alias value is
`imports[index + 1]`, whose absence is Python's IndexError and gives `none`
(the loop re-checks only membership of `as`, not the guard's bound); the
aliased name is `imports[index - 1]`, which for index 0 is Python's negative
index -1, the last token; the pair is then deleted.  The fuel is called with
more than the token count and each turn removes two tokens. -/
def extractAsLoop (isFrom : Bool) :
    Nat → List (String × String) → List String →
      Option (List (String × String) × List String)
  | 0, _, _ => none
  | f + 1, am, toks =>
      if toks.contains "as" then
        let idx := toks.indexOf "as"
        match toks.get? (idx + 1) with
        | none => none
        | some v =>
            let prev := if idx = 0 then toks.getLastD "" else (toks.get? (idx - 1)).getD ""
            let key := if isFrom then toks.headD "" ++ "." ++ prev else prev
            extractAsLoop isFrom f (updateAssoc am key v) (toks.take idx ++ toks.drop (idx + 2))
      else some (am, toks)

/-- Models lines 390-398 of isort.py: the loop above runs only when the first
`as` has a token after it; otherwise the tokens (including the dangling `as`)
are left untouched and no alias is recorded. -/
def extractAs (isFrom : Bool) (am : List (String × String)) (toks : List String) :
    Option (List (String × String) × List String) :=
  if toks.contains "as" ∧ toks.indexOf "as" + 1 < toks.length then
    extractAsLoop isFrom (toks.length + 1) am toks
  else some (am, toks)

/-- Models the record step at the end of `_parse` (isort.py lines 399-412):
a from-import pops its module token (IndexError, hence `none`, when there is
none) and unions the rest into the from-map of the module's section; a
straight import adds every token as a module. -/
def addRecords (cfg : Config) (pm : String → Option Nat) (agg : Agg) (ty : ImpType)
    (toks : List String) : Option Agg :=
  match ty with
  | .fromImp =>
      match toks with
      | [] => none
      | m :: syms =>
          some (updateAgg agg (placeModule cfg pm m)
            (fun b => { b with fromMap := fromMapAdd b.fromMap m syms }))
  | .straight => some (addStraightTokens cfg pm agg toks)

/-- Models the parenthesis-continuation loop of `_parse` (isort.py lines
375-378): while the current line does not end (stripped) with `)` and lines
remain, the next line is read, comment-stripped, and appended with a newline.
Returns the logical statement, the unconsumed lines and the consumed count. -/
def grabParen (stmt line : String) : List String → String × List String × Nat
  | [] => (stmt, [], 0)
  | r :: rs =>
      if stripEndsWith line ')' then (stmt, r :: rs, 0)
      else
        let l := stripComments r
        let (s, rest2, n) := grabParen (stmt ++ "\n" ++ l) l rs
        (s, rest2, n + 1)

/-- Models the backslash-continuation loop of `_parse` (isort.py lines
380-382): while the current line ends (stripped) with a backslash the next
line is read; reading past the end of the file is Python's IndexError in
`_get_line` and gives `none`. -/
def grabBackslash (stmt line : String) : List String → Option (String × List String × Nat)
  | [] => if stripEndsWith line '\\' then none else some (stmt, [], 0)
  | r :: rs =>
      if stripEndsWith line '\\' then
        let l := stripComments r
        (grabBackslash (stmt ++ "\n" ++ l) l rs).map (fun p => (p.1, p.2.1, p.2.2 + 1))
      else some (stmt, r :: rs, 0)

/-- The mutable state of `SortImports._parse`: the pass-through lines, the
anchor index of the first import (`-1` is `none`), the aggregate, the alias
map, the current line index and the quote-tracker state. -/
structure PState where
  outLines : List String
  importIndex : Option Nat
  agg : Agg
  asMap : List (String × String)
  pos : Nat
  inQuote : Option (List Char)

/-- The state `_parse` starts from. -/
def initState : PState :=
  { outLines := [], importIndex := none, agg := fun _ => emptyBucket,
    asMap := [], pos := 0, inQuote := none }

/-- Models the main loop of `SortImports._parse` (isort.py lines 341-412).
Per line: the quote scanner runs when the line holds a quote character;
`skip_line` is the tracker state at the line's start; a line with no import
type, or scanned while inside a string, passes through to `outLines`; an
importing line records the anchor on first sight, grabs its continuation lines,
tokenizes, extracts aliases and adds its records.  `none` models an uncaught
Python exception.  The fuel is always supplied above the line count and every
turn consumes at least one line. -/
def parseLoop (cfg : Config) (pm : String → Option Nat) :
    Nat → PState → List String → Option PState
  | _, st, [] => some st
  | 0, _, _ :: _ => none
  | fuel + 1, st, line :: rest =>
      let skipLine := st.inQuote.isSome
      let q2 := if line.data.contains '"' ∨ line.data.contains '\'' then
          scanChars st.inQuote line.data
        else st.inQuote
      let passThrough : Option PState := parseLoop cfg pm fuel
        { st with outLines := st.outLines ++ [line], pos := st.pos + 1, inQuote := q2 } rest
      match importTypeOf line with
      | none => passThrough
      | some ty =>
          if skipLine then passThrough
          else
            let ii := match st.importIndex with
              | none => some st.pos
              | some i => some i
            let stmt0 := stripComments line
            let grabbed : Option (String × List String × Nat) :=
              if line.data.contains '(' && !rest.isEmpty then some (grabParen stmt0 line rest)
              else grabBackslash stmt0 line rest
            match grabbed with
            | none => none
            | some (stmt, rest2, consumed) =>
                match extractAs (ty = ImpType.fromImp) st.asMap (tokenize stmt) with
                | none => none
                | some (am2, toks2) =>
                    match addRecords cfg pm st.agg ty toks2 with
                    | none => none
                    | some agg2 =>
                        parseLoop cfg pm fuel
                          { outLines := st.outLines, importIndex := ii, agg := agg2,
                            asMap := am2, pos := st.pos + 1 + consumed, inQuote := q2 } rest2

/-- Pops trailing whitespace-only elements, modelling the
`while ... output[-1:] == ['']: output.pop()` loops of isort.py (lines
324-325 and 162-163). -/
def trimTrailingBlanks (l : List String) : List String :=
  (l.reverse.dropWhile isBlankStr).reverse

/-- The ordered section keys the engine iterates over, modelling
`itertools.chain(SECTIONS, self.config['forced_separate'])` (isort.py lines
151-152 and 257): the five standard sections in their fixed order, then the
forced-separate sections in configuration order. -/
def sectionList (cfg : Config) : List SectionKey :=
  (List.range 5).map Sum.inl ++ cfg.forced_separate.map Sum.inr

/-- Models the rendering of one from-module inside `_add_formatted_imports`
(isort.py lines 285-319): symbols are sorted by the module key; when
`remove_imports` is configured, symbols whose `module.symbol` form it lists
are dropped; every symbol with a recorded alias becomes its own
`from module import symbol as alias` line and leaves the remaining list; if
symbols remain, a `*` among them collapses the statement to
`from module import *`, and otherwise one statement is built whose first line
holds the first symbol and which gains one further `from module import symbol`
line (joined with a newline into the same output element) per remaining
symbol. -/
def fromAliasLines (asMap : List (String × String)) (start m : String)
    (filtered : List String) : List String :=
  filtered.filterMap
    (fun s => (lookupAssoc asMap (m ++ "." ++ s)).map (fun a => start ++ s ++ " as " ++ a))

/-- The statement built from the unaliased remaining symbols: nothing when
none remain, `from module import *` when `*` is among them, otherwise the
single element whose further symbols are joined with a newline and a repeated
`from module import `. -/
def fromRemainingLines (start : String) (remaining : List String) : List String :=
  match remaining with
  | [] => []
  | r :: rs =>
      if remaining.contains "*" then [start ++ "*"]
      else [rs.foldl (fun acc s => acc ++ "\n" ++ start ++ s) (start ++ r)]

def fromModuleLines (cfg : Config) (asMap : List (String × String)) (m : String)
    (syms : List String) : List String :=
  let start := "from " ++ m ++ " import "
  let sorted0 := sortedByKey cfg syms
  let filtered := if !cfg.remove_imports.isEmpty then
      sorted0.filter (fun s => ¬ cfg.remove_imports.contains (m ++ "." ++ s))
    else sorted0
  fromAliasLines asMap start m filtered ++
    fromRemainingLines start (filtered.filter (fun s => (lookupAssoc asMap (m ++ "." ++ s)).isNone))

/-- The straight-import lines of one section (isort.py lines 258-273):
modules sorted by the module key, those in `remove_imports` skipped, each
rendered `import module` or `import module as alias`. -/
def straightLinesOf (cfg : Config) (asMap : List (String × String)) (b : Bucket) :
    List String :=
  (sortedByKey cfg b.straight).filterMap (fun m =>
    if cfg.remove_imports.contains m then none
    else match lookupAssoc asMap m with
      | some a => some ("import " ++ m ++ " as " ++ a)
      | none => some ("import " ++ m))

/-- The from-import lines of one section (isort.py lines 275-319): module
keys sorted by the module key, modules in `remove_imports` skipped, each
rendered by `fromModuleLines`. -/
def fromLinesOf (cfg : Config) (asMap : List (String × String)) (b : Bucket) :
    List String :=
  (sortedByKey cfg (b.fromMap.map Prod.fst)).foldr
    (fun m acc =>
      (if cfg.remove_imports.contains m then []
       else fromModuleLines cfg asMap m (((b.fromMap.find? (fun p => p.1 = m)).map Prod.snd).getD []))
      ++ acc) []

/-- One section's rendered body: straight lines then from lines. -/
def sectionBody (cfg : Config) (asMap : List (String × String)) (b : Bucket) : List String :=
  straightLinesOf cfg asMap b ++ fromLinesOf cfg asMap b

/-- One section's contribution to the output list: its body, followed by one
blank separator element when the section's module lists are non-empty
(isort.py lines 321-322 test the sorted module lists, before any
`remove_imports` filtering). -/
def sectionChunk (cfg : Config) (asMap : List (String × String)) (b : Bucket) : List String :=
  sectionBody cfg asMap b ++
    (if !(sortedByKey cfg b.straight).isEmpty || !(sortedByKey cfg (b.fromMap.map Prod.fst)).isEmpty
     then [""] else [])

/-- The output list `_add_formatted_imports` accumulates over the section
chain (isort.py lines 256-322), before trailing-blank trimming. -/
def formatRaw (cfg : Config) (agg : Agg) (asMap : List (String × String)) : List String :=
  (sectionList cfg).foldl (fun out s => out ++ sectionChunk cfg asMap (agg s)) []

/-- The rendered block after the trailing-blank trim (isort.py lines 324-325). -/
def formatTrimmed (cfg : Config) (agg : Agg) (asMap : List (String × String)) : List String :=
  trimTrailingBlanks (formatRaw cfg agg asMap)

/-- Models the splice-and-pad tail of `_add_formatted_imports` (isort.py
lines 327-339): the rendered block is inserted into the pass-through lines at
the import anchor; the blank elements immediately after the block are popped;
if a line follows, one blank element is put back, or two when that line starts
a `def`, `class` or decorator. -/
def spliceFormatted (cfg : Config) (st : PState) : List String :=
  let output := formatTrimmed cfg st.agg st.asMap
  let idx := st.importIndex.getD 0
  let o1 := st.outLines.take idx ++ output ++ st.outLines.drop idx
  let tl := idx + output.length
  let o2 := o1.take tl ++ (o1.drop tl).dropWhile isBlankStr
  if tl < o2.length then
    let nc := (o2.get? tl).getD ""
    let pad := if strHasPrefix "def" nc ∨ strHasPrefix "class" nc ∨ strHasPrefix "@" nc
      then ["", ""] else [""]
    o2.take tl ++ pad ++ o2.drop tl
  else o2

/-- The whole engine, modelling `SortImports.__init__` on given file contents
(isort.py lines 139-166): an `isort:skip_file` marker aborts with no output;
the text is split into lines, `add_imports` is appended, the parse pass runs
(`none` models an uncaught exception), the rendered block is spliced when
an import was found, trailing blank lines are dropped, one empty line is
appended, and the lines are joined with newlines.  `parseOf` runs the parse
pass of `__init__`: the text split into lines with `add_imports` appended,
through `_parse` with ample fuel. -/
def parseOf (cfg : Config) (pm : String → Option Nat) (text : String) : Option PState :=
  parseLoop cfg pm ((splitNlGo [] text.data ++ cfg.add_imports).length + 1) initState
    (splitNlGo [] text.data ++ cfg.add_imports)

/-- True when the parse pass succeeded and detected no import statement
(`self.import_index` stayed -1). -/
def noImportFound (cfg : Config) (pm : String → Option Nat) (text : String) : Bool :=
  match parseOf cfg pm text with
  | some st => st.importIndex.isNone
  | none => false

def sortImports (cfg : Config) (pm : String → Option Nat) (text : String) : Option String :=
  if strContains ("isort:" ++ "skip_file") text then none
  else
    match parseOf cfg pm text with
    | none => none
    | some st =>
        let outLines := if st.importIndex.isSome then spliceFormatted cfg st else st.outLines
        some (joinNl (trimTrailingBlanks outLines ++ [""]))

/-- The probe that finds no module on the path (an empty or irrelevant
`PYTHONPATH`), used by every concrete evaluation. -/
def noProbe : String → Option Nat := fun _ => none

/-- One step of the packing loop shared by `_output_grid` and
`_output_vertical_grid_common` (isort.py lines 434-442 and 480-488).  The
statement string under construction is carried as its completed physical
lines paired with its current last line; `statement.split('\n')[-1]` is that
last line.  The candidate is the last line extended by `, symbol`; when its
length plus one exceeds the limit the statement instead gains `,` a newline
and `ws` plus the symbol. -/
def gridStep (lineLength : Nat) (ws : String) (st : List String × String) (nxt : String) :
    List String × String :=
  if (st.2 ++ ", " ++ nxt).length + 1 > lineLength then
    (st.1 ++ [st.2 ++ ","], ws ++ nxt)
  else (st.1, st.2 ++ ", " ++ nxt)

/-- Models `_output_grid` (isort.py lines 432-443) with the built string
represented as its list of physical lines: `statement += '(' + imports.pop(0)`
opens the first line, each further symbol goes through `gridStep` with the
wrapping indentation `white_space`, and the closing parenthesis lands on the
last line.  The empty import list (on which Python's `pop` would raise) gives
`[]`; the engine only ever supplies non-empty lists. -/
def outputGridLines (statement : String) (imports : List String) (ws : String)
    (lineLength : Nat) : List String :=
  match imports with
  | [] => []
  | first :: rest =>
      let st := rest.foldl (gridStep lineLength ws) ([], statement ++ "(" ++ first)
      st.1 ++ [st.2 ++ ")"]

/-- Models `_output_vertical_grid` (isort.py lines 477-499) with the built
string represented as its list of physical lines: `statement += '(\n' +
indent + imports.pop(0)` completes a first line holding only the opening
parenthesis and starts the second with the indent and first symbol, the
packing loop wraps with `indent`, and the closing parenthesis lands on the
last line. -/
def outputVerticalGridLines (statement : String) (imports : List String) (indent : String)
    (lineLength : Nat) : List String :=
  match imports with
  | [] => []
  | first :: rest =>
      let st := rest.foldl (gridStep lineLength indent) ([statement ++ "("], indent ++ first)
      st.1 ++ [st.2 ++ ")"]

/-- The bound that a rendered line of the packing styles actually satisfies:
it fits in the width, or it is the opening line (at most the statement, the
parenthesis, the first symbol and a trailing comma or parenthesis, `B`), or it
carries a single wrapped symbol over the wrap indentation plus trailing
punctuation. -/
def lineBound (lineLength B : Nat) (ws : String) (syms : List String) (l : String) : Prop :=
  l.length ≤ lineLength ∨ l.length ≤ B ∨ ∃ s ∈ syms, l.length ≤ ws.length + s.length + 1

theorem gridFold_bound (lineLength B : Nat) (ws : String) (syms : List String) :
    ∀ (rest done : List String) (cur : String),
      (∀ x ∈ rest, x ∈ syms) →
      (∀ l ∈ done, lineBound lineLength B ws syms l) →
      (cur.length + 1 ≤ lineLength ∨ cur.length + 1 ≤ B ∨
        ∃ s ∈ syms, cur.length + 1 ≤ ws.length + s.length + 1) →
      (∀ l ∈ (rest.foldl (gridStep lineLength ws) (done, cur)).1,
          lineBound lineLength B ws syms l) ∧
      ((rest.foldl (gridStep lineLength ws) (done, cur)).2.length + 1 ≤ lineLength ∨
        (rest.foldl (gridStep lineLength ws) (done, cur)).2.length + 1 ≤ B ∨
        ∃ s ∈ syms, (rest.foldl (gridStep lineLength ws) (done, cur)).2.length + 1 ≤
          ws.length + s.length + 1) := by
  intro rest
  induction rest with
  | nil =>
      intro done cur _ hdone hcur
      exact ⟨hdone, hcur⟩
  | cons nxt rest ih =>
      intro done cur hsub hdone hcur
      have hnxt : nxt ∈ syms := hsub nxt (by simp)
      have hsub2 : ∀ x ∈ rest, x ∈ syms := fun x hx => hsub x (by simp [hx])
      have ecand : (cur ++ ", " ++ nxt).length = cur.length + 2 + nxt.length := by
        rw [String.length_append, String.length_append]
        rfl
      simp only [List.foldl_cons]
      by_cases hif : (cur ++ ", " ++ nxt).length + 1 > lineLength
      · have hstep : gridStep lineLength ws (done, cur) nxt =
            (done ++ [cur ++ ","], ws ++ nxt) := by
          simp only [gridStep, if_pos hif]
        rw [hstep]
        apply ih (done ++ [cur ++ ","]) (ws ++ nxt) hsub2
        · intro l hl
          rcases List.mem_append.mp hl with h | h
          · exact hdone l h
          · have hleq : l = cur ++ "," := by simpa using h
            subst hleq
            have hlen : (cur ++ ",").length = cur.length + 1 := by
              rw [String.length_append]
              rfl
            rcases hcur with h1 | h1 | ⟨s, hs, h1⟩
            · exact Or.inl (by omega)
            · exact Or.inr (Or.inl (by omega))
            · exact Or.inr (Or.inr ⟨s, hs, by omega⟩)
        · refine Or.inr (Or.inr ⟨nxt, hnxt, ?_⟩)
          have : (ws ++ nxt).length = ws.length + nxt.length := String.length_append ws nxt
          omega
      · have hstep : gridStep lineLength ws (done, cur) nxt =
            (done, cur ++ ", " ++ nxt) := by
          simp only [gridStep, if_neg hif]
        rw [hstep]
        apply ih done (cur ++ ", " ++ nxt) hsub2 hdone
        exact Or.inl (by omega)

/-- C4 is corrected: for any rendered line of `_output_grid` or
`_output_vertical_grid`, either the line fits within `line_length`, or the
line is the opening line (statement, parenthesis, first symbol and trailing
punctuation), or the line carries a single symbol over the wrap indentation
plus trailing punctuation.  The claim's weaker exception ("unless a single
symbol alone already exceeds the limit") is refuted by `c4_counterexample`. -/
theorem c4_wrap_line_bound (statement ws ind : String) (lineLength : Nat)
    (first : String) (rest : List String) (line : String) :
    (line ∈ outputGridLines statement (first :: rest) ws lineLength →
      line.length ≤ lineLength ∨ line.length ≤ statement.length + first.length + 2 ∨
        ∃ s ∈ rest, line.length ≤ ws.length + s.length + 1) ∧
    (line ∈ outputVerticalGridLines statement (first :: rest) ind lineLength →
      line.length ≤ lineLength ∨ line.length ≤ statement.length + 1 ∨
        ∃ s ∈ first :: rest, line.length ≤ ind.length + s.length + 1) := by
  constructor
  · intro hmem
    have h := gridFold_bound lineLength (statement.length + first.length + 2) ws rest rest
      [] (statement ++ "(" ++ first) (fun x hx => hx) (by simp)
      (by
        refine Or.inr (Or.inl ?_)
        have e1 : (statement ++ "(" ++ first).length = statement.length + 1 + first.length := by
          rw [String.length_append, String.length_append]
          rfl
        omega)
    simp only [outputGridLines] at hmem
    rcases List.mem_append.mp hmem with hm | hm
    · exact h.1 line hm
    · have : line = (rest.foldl (gridStep lineLength ws) ([], statement ++ "(" ++ first)).2 ++ ")" := by
        simpa using hm
      subst this
      have hlen : ((rest.foldl (gridStep lineLength ws) ([], statement ++ "(" ++ first)).2 ++ ")").length =
          (rest.foldl (gridStep lineLength ws) ([], statement ++ "(" ++ first)).2.length + 1 := by
        rw [String.length_append]
        rfl
      rcases h.2 with h1 | h1 | ⟨s, hs, h1⟩
      · exact Or.inl (by omega)
      · exact Or.inr (Or.inl (by omega))
      · exact Or.inr (Or.inr ⟨s, hs, by omega⟩)
  · intro hmem
    have h := gridFold_bound lineLength (statement.length + 1) ind (first :: rest) rest
      [statement ++ "("] (ind ++ first) (fun x hx => by simp [hx])
      (by
        intro l hl
        have hleq : l = statement ++ "(" := by simpa using hl
        subst hleq
        refine Or.inr (Or.inl ?_)
        have e1 : (statement ++ "(").length = statement.length + 1 := by
          rw [String.length_append]
          rfl
        omega)
      (by
        refine Or.inr (Or.inr ⟨first, by simp, ?_⟩)
        have e1 : (ind ++ first).length = ind.length + first.length := String.length_append ind first
        omega)
    simp only [outputVerticalGridLines] at hmem
    rcases List.mem_append.mp hmem with hm | hm
    · exact h.1 line hm
    · have : line = (rest.foldl (gridStep lineLength ind) ([statement ++ "("], ind ++ first)).2 ++ ")" := by
        simpa using hm
      subst this
      have hlen : ((rest.foldl (gridStep lineLength ind) ([statement ++ "("], ind ++ first)).2 ++ ")").length =
          (rest.foldl (gridStep lineLength ind) ([statement ++ "("], ind ++ first)).2.length + 1 := by
        rw [String.length_append]
        rfl
      rcases h.2 with h1 | h1 | ⟨s, hs, h1⟩
      · exact Or.inl (by omega)
      · exact Or.inr (Or.inl (by omega))
      · exact Or.inr (Or.inr ⟨s, hs, by omega⟩)

/-- Thirty spaces: the alignment under the opening parenthesis of
`from aaaaaaaaaaaaaaaa import (`. -/
def wsThirty : String := "                              "

/-- C4's claim as stated is false: with `line_length` 20 and the from-header
`from aaaaaaaaaaaaaaaa import `, `_output_grid` renders lines of length 32
although every symbol alone has length 1 ≤ 20. -/
theorem c4_counterexample :
    (∀ s ∈ ["b", "c"], s.length ≤ 20) ∧
    ∃ line ∈ outputGridLines "from aaaaaaaaaaaaaaaa import " ["b", "c"] wsThirty 20,
      20 < line.length := by
  decide

/-- C1: on the two statements of the claim with the default configuration
(whose `multi_line_output` is Grid), the engine produces exactly one output
element for module `a` holding both symbols, but renders it as one
`from a import <symbol>` line per symbol; the comma-joined form
`from a import b, c` the claim states is not produced (the `_output_grid`
machinery is never invoked by `_add_formatted_imports`). -/
theorem c1_merge_rendering :
    sortImports defaultConfig noProbe "from a import b\nfrom a import c\n" =
      some "from a import b\nfrom a import c\n" ∧
    sortImports defaultConfig noProbe "from a import b\nfrom a import c\n" ≠
      some "from a import b, c\n" := by
  decide

/-- C2: the engine is not idempotent.  On the input
`import a"\nimport b"\nimport c\n` the first pass consumes the quote-opening
line `import a"` as an import yet leaves the tracker inside a string, so
`import c` is sorted; on the first pass's own output the reopened quote makes
the second pass skip `import c`, and an extra blank line appears. -/
theorem c2_not_idempotent :
    sortImports defaultConfig noProbe "import a\"\nimport b\"\nimport c\n" =
      some "import a\"\nimport c\n\nimport b\"\n" ∧
    sortImports defaultConfig noProbe "import a\"\nimport c\n\nimport b\"\n" =
      some "import a\"\n\nimport c\n\nimport b\"\n" ∧
    ("import a\"\nimport c\n\nimport b\"\n" : String) ≠
      "import a\"\n\nimport c\n\nimport b\"\n" := by
  decide

/-- C5: `place_module` classifies the dotless name `osx` as STDLIB although
`osx` is not in `known_standard_library` and has no dotted component:
`moduleName.find('.')` is -1, `if index:` is true for -1, and the "first
part" becomes the name without its last character, `os`. -/
theorem c5_dotless_stdlib :
    placeModule defaultConfig noProbe "osx" = Sum.inl 1 ∧
    defaultConfig.known_standard_library.contains "osx" = false ∧
    ("osx" : String).data.contains '.' = false ∧
    firstPartOf "osx" = some "os" := by
  decide

/-- The default configuration with `length_sort` switched on. -/
def cfgLengthSort : Config := { defaultConfig with length_sort := true }

/-- C6: with `length_sort`, `_module_key` glues the decimal string of the
length in front of the name, so keys compare lexicographically as strings:
`B10:abcdefghij` sorts before `B2:ab` and the length-10 module is rendered
before the length-2 module, not after it. -/
theorem c6_length_sort_lexicographic :
    moduleKey cfgLengthSort "ab" = "B2:ab" ∧
    moduleKey cfgLengthSort "abcdefghij" = "B10:abcdefghij" ∧
    sortedByKey cfgLengthSort ["ab", "abcdefghij"] = ["abcdefghij", "ab"] ∧
    sortImports cfgLengthSort noProbe "import ab\nimport abcdefghij\n" =
      some "import abcdefghij\nimport ab\n" := by
  decide

/-- C8: a dangling `as` whose statement has no earlier complete pair is
tolerated (`import a as` keeps `as` as a module of its own), but when a
complete `as b` pair precedes the dangling `as`, the guard at line 390 of
isort.py passes (it checks only the first `as`) and the loop's
`imports[index + 1]` raises IndexError: the engine fails on
`import a as b as`. -/
theorem c8_dangling_as :
    sortImports defaultConfig noProbe "import a as\n" = some "import a\nimport as\n" ∧
    sortImports defaultConfig noProbe "import a as b as\n" = none ∧
    extractAs false [] ["a", "as", "b", "as"] = none := by
  decide

theorem addStraightTokens_spec (cfg : Config) (pm : String → Option Nat) :
    ∀ (toks : List String) (agg : Agg) (k : SectionKey),
      (addStraightTokens cfg pm agg toks k).straight =
        (toks.filter (fun m => decide (placeModule cfg pm m = k))).foldl setAdd
          (agg k).straight := by
  intro toks
  induction toks with
  | nil => intro agg k; rfl
  | cons m ms ih =>
      intro agg k
      have hstep : addStraightTokens cfg pm agg (m :: ms) =
          addStraightTokens cfg pm
            (updateAgg agg (placeModule cfg pm m)
              (fun b => { b with straight := setAdd b.straight m })) ms := rfl
      rw [hstep, ih]
      by_cases hk : placeModule cfg pm m = k
      · have : (updateAgg agg (placeModule cfg pm m)
            (fun b => { b with straight := setAdd b.straight m }) k).straight =
              setAdd (agg k).straight m := by
          simp [updateAgg, hk]
        rw [this]
        simp [List.filter_cons, hk]
      · have : (updateAgg agg (placeModule cfg pm m)
            (fun b => { b with straight := setAdd b.straight m }) k).straight =
              (agg k).straight := by
          have hne : ¬ k = placeModule cfg pm m := fun h => hk h.symm
          simp [updateAgg, if_neg hne]
        rw [this]
        simp [List.filter_cons, hk]

/-- C10: a straight statement listing several modules is split into one
record per module.  Concretely, `import os, myproj` yields two independent
`import` lines in two different sections (`os` in STDLIB, `myproj` in the
default FIRSTPARTY); in general, the straight branch of `_parse` folds every
token through its own `place_module` classification, so a section's straight
set receives exactly the listed modules that classify into it. -/
theorem c10_straight_split :
    (sortImports defaultConfig noProbe "import os, myproj\n" =
      some "import os\n\nimport myproj\n") ∧
    (tokenize "import os, myproj" = ["os", "myproj"]) ∧
    ∀ (cfg : Config) (pm : String → Option Nat) (toks : List String) (agg : Agg)
      (k : SectionKey),
      (addStraightTokens cfg pm agg toks k).straight =
        (toks.filter (fun m => decide (placeModule cfg pm m = k))).foldl setAdd
          (agg k).straight := by
  refine ⟨by decide, by decide, ?_⟩
  intro cfg pm toks agg k
  exact addStraightTokens_spec cfg pm toks agg k

theorem char_eq_of_toNat_eq {a b : Char} (h : a.toNat = b.toNat) : a = b := by
  have h2 := congrArg Char.ofNat h
  rwa [Char.ofNat_toNat, Char.ofNat_toNat] at h2

theorem listLe_total : ∀ a b : List Char, listLe a b = true ∨ listLe b a = true
  | [], _ => Or.inl rfl
  | _ :: _, [] => Or.inr rfl
  | a :: as, b :: bs => by
      by_cases hab : a = b
      · subst hab
        rcases listLe_total as bs with h | h
        · exact Or.inl (by simpa [listLe] using h)
        · exact Or.inr (by simpa [listLe] using h)
      · have hne : a.toNat ≠ b.toNat := fun he => hab (char_eq_of_toNat_eq he)
        rcases Nat.lt_or_ge a.toNat b.toNat with h | h
        · exact Or.inl (by simp [listLe, hab, h])
        · have hlt : b.toNat < a.toNat := Nat.lt_of_le_of_ne h (Ne.symm hne)
          exact Or.inr (by simp [listLe, Ne.symm hab, hlt])

theorem listLe_trans : ∀ a b c : List Char,
    listLe a b = true → listLe b c = true → listLe a c = true
  | [], _, _, _, _ => rfl
  | _ :: _, [], _, h, _ => by simp [listLe] at h
  | _ :: _, _ :: _, [], _, h => by simp [listLe] at h
  | a :: as, b :: bs, c :: cs, h1, h2 => by
      by_cases hab : a = b
      · subst hab
        by_cases hbc : a = c
        · subst hbc
          simp only [listLe, if_pos rfl] at h1 h2 ⊢
          exact listLe_trans as bs cs h1 h2
        · simp only [listLe, if_neg hbc] at h2 ⊢
          exact h2
      · have h1lt : a.toNat < b.toNat := by simpa [listLe, hab] using h1
        by_cases hbc : b = c
        · subst hbc
          simp [listLe, hab, h1lt]
        · have h2lt : b.toNat < c.toNat := by simpa [listLe, hbc] using h2
          have hac : a ≠ c := by
            intro he
            subst he
            omega
          simp [listLe, hac]
          omega

theorem keyLe_total (cfg : Config) (a b : String) :
    keyLe cfg a b = true ∨ keyLe cfg b a = true :=
  listLe_total (moduleKey cfg a).data (moduleKey cfg b).data

theorem keyLe_trans (cfg : Config) (a b c : String) (h1 : keyLe cfg a b = true)
    (h2 : keyLe cfg b c = true) : keyLe cfg a c = true :=
  listLe_trans (moduleKey cfg a).data (moduleKey cfg b).data (moduleKey cfg c).data h1 h2

theorem insertAsc_perm (le : String → String → Bool) (a : String) :
    ∀ l, (insertAsc le a l).Perm (a :: l)
  | [] => List.Perm.refl _
  | b :: bs => by
      by_cases h : le a b = true
      · simp [insertAsc, h]
      · simp only [insertAsc, if_neg h]
        exact ((insertAsc_perm le a bs).cons b).trans (List.Perm.swap a b bs)

theorem sortAsc_perm (le : String → String → Bool) : ∀ l, (sortAsc le l).Perm l
  | [] => List.Perm.refl _
  | x :: xs => (insertAsc_perm le x (sortAsc le xs)).trans ((sortAsc_perm le xs).cons x)

theorem insertAsc_pairwise (le : String → String → Bool)
    (htot : ∀ a b, le a b = true ∨ le b a = true)
    (htrans : ∀ a b c, le a b = true → le b c = true → le a c = true) (a : String) :
    ∀ l, l.Pairwise (fun x y => le x y = true) →
      (insertAsc le a l).Pairwise (fun x y => le x y = true)
  | [], _ => by simp [insertAsc]
  | b :: bs, hp => by
      rcases List.pairwise_cons.mp hp with ⟨hb, hbs⟩
      by_cases h : le a b = true
      · simp only [insertAsc, if_pos h]
        refine List.pairwise_cons.mpr ⟨?_, hp⟩
        intro x hx
        rcases List.mem_cons.mp hx with rfl | hx
        · exact h
        · exact htrans a b x h (hb x hx)
      · simp only [insertAsc, if_neg h]
        refine List.pairwise_cons.mpr ⟨?_, insertAsc_pairwise le htot htrans a bs hbs⟩
        intro x hx
        have hx2 : x = a ∨ x ∈ bs := by
          simpa using (insertAsc_perm le a bs).mem_iff.mp hx
        rcases hx2 with rfl | hx2
        · rcases htot x b with h1 | h1
          · exact absurd h1 h
          · exact h1
        · exact hb x hx2

theorem sortAsc_pairwise (le : String → String → Bool)
    (htot : ∀ a b, le a b = true ∨ le b a = true)
    (htrans : ∀ a b c, le a b = true → le b c = true → le a c = true) :
    ∀ l, (sortAsc le l).Pairwise (fun x y => le x y = true)
  | [] => List.Pairwise.nil
  | x :: xs =>
      insertAsc_pairwise le htot htrans x (sortAsc le xs)
        (sortAsc_pairwise le htot htrans xs)

theorem listLe_B_A (t1 t2 : List Char) : listLe ('B' :: t1) ('A' :: t2) = false := by
  simp only [listLe, if_neg (show ¬('B' : Char) = 'A' by decide)]
  decide

theorem keyLe_forced_false (cfg : Config) (h x : String)
    (hx : cfg.force_to_top.contains (strLower x) = true)
    (hh : cfg.force_to_top.contains (strLower h) = false) :
    keyLe cfg h x = false := by
  unfold keyLe strLeB
  have hxm : strLower x ∈ cfg.force_to_top := by simpa using hx
  have hhm : strLower h ∉ cfg.force_to_top := by simpa using hh
  have hx2 : moduleKey cfg x = "A" ++
      (if cfg.length_sort then toString (strLower x).length ++ ":" ++ strLower x
       else strLower x) := by
    simp [moduleKey, hxm]
  have hh2 : moduleKey cfg h = "B" ++
      (if cfg.length_sort then toString (strLower h).length ++ ":" ++ strLower h
       else strLower h) := by
    simp [moduleKey, hhm]
  rw [hx2, hh2, String.data_append, String.data_append]
  exact listLe_B_A _ _

theorem dropWhile_forced_false (cfg : Config) :
    ∀ l : List String, l.Pairwise (fun x y => keyLe cfg x y = true) →
      ∀ m ∈ l.dropWhile (fun m => cfg.force_to_top.contains (strLower m)),
        cfg.force_to_top.contains (strLower m) = false
  | [], _, m, hm => by simp [List.dropWhile] at hm
  | a :: l, hp, m, hm => by
      rcases List.pairwise_cons.mp hp with ⟨ha, hl⟩
      rw [List.dropWhile_cons] at hm
      by_cases hpa : cfg.force_to_top.contains (strLower a) = true
      · rw [if_pos hpa] at hm
        exact dropWhile_forced_false cfg l hl m hm
      · have hpa2 : cfg.force_to_top.contains (strLower a) = false :=
          Bool.eq_false_iff.mpr hpa
        rw [if_neg hpa] at hm
        rcases List.mem_cons.mp hm with rfl | hm2
        · exact hpa2
        · cases hmem : cfg.force_to_top.contains (strLower m)
          · rfl
          · have hfalse := keyLe_forced_false cfg a m hmem hpa2
            have htrue := ha m hm2
            rw [htrue] at hfalse
            exact absurd hfalse (by simp)

theorem takeWhile_forced_true (cfg : Config) :
    ∀ l : List String, ∀ m ∈ l.takeWhile (fun m => cfg.force_to_top.contains (strLower m)),
      cfg.force_to_top.contains (strLower m) = true
  | [], m, hm => by simp [List.takeWhile] at hm
  | a :: l, m, hm => by
      rw [List.takeWhile_cons] at hm
      by_cases hpa : cfg.force_to_top.contains (strLower a) = true
      · rw [if_pos hpa] at hm
        rcases List.mem_cons.mp hm with rfl | hm2
        · exact hpa
        · exact takeWhile_forced_true cfg l m hm2
      · rw [if_neg hpa] at hm
        simp at hm

/-- C7 amended: within the sorted order the engine renders (straight modules,
from-modules and symbols are all sorted through `sortedByKey`), every module
whose lowercased name is listed in `force_to_top` comes before every module
whose lowercased name is not: the sorted list splits as `u ++ v` with all of
`u` lowercased-members and all of `v` not, and is a permutation of the input.
Membership of the module's own spelling does not suffice (`c7_counterexample`):
`_module_key` lowercases the module before the test, so entries of
`force_to_top` containing upper-case letters never match. -/
theorem c7_force_to_top_order (cfg : Config) (l : List String) :
    ∃ u v, sortedByKey cfg l = u ++ v ∧
      (sortedByKey cfg l).Perm l ∧
      (∀ m ∈ u, cfg.force_to_top.contains (strLower m) = true) ∧
      (∀ m ∈ v, cfg.force_to_top.contains (strLower m) = false) := by
  refine ⟨(sortedByKey cfg l).takeWhile (fun m => cfg.force_to_top.contains (strLower m)),
    (sortedByKey cfg l).dropWhile (fun m => cfg.force_to_top.contains (strLower m)),
    (List.takeWhile_append_dropWhile _ _).symm, sortAsc_perm _ l,
    takeWhile_forced_true cfg _, ?_⟩
  exact dropWhile_forced_false cfg (sortedByKey cfg l)
    (sortAsc_pairwise (keyLe cfg) (keyLe_total cfg) (keyLe_trans cfg) l)

/-- The default configuration with `force_to_top := ['Z']`. -/
def cfgForceZ : Config := { defaultConfig with force_to_top := ["Z"] }

/-- C7 as stated is false: `Z` is a member of the configured `force_to_top`
set and `a` is not (in any letter case), yet the engine renders `import a`
before `import Z` within the same section, because `_module_key` lowercases
the module name before the membership test and `z` is not in `['Z']`. -/
theorem c7_counterexample :
    ("Z" ∈ cfgForceZ.force_to_top) ∧ ("a" ∉ cfgForceZ.force_to_top) ∧
    ("A" ∉ cfgForceZ.force_to_top) ∧
    sortImports cfgForceZ noProbe "import Z\nimport a\n" = some "import a\nimport Z\n" := by
  decide

/-- A concrete instance of the amended force-to-top theorem: with the
lower-case entry `z` configured, the split exists for the list `['a', 'z']`. -/
theorem c7_witness :
    ∃ u v, sortedByKey { defaultConfig with force_to_top := ["z"] } ["a", "z"] = u ++ v ∧
      (sortedByKey { defaultConfig with force_to_top := ["z"] } ["a", "z"]).Perm ["a", "z"] ∧
      (∀ m ∈ u, ({ defaultConfig with force_to_top := ["z"] } : Config).force_to_top.contains
        (strLower m) = true) ∧
      (∀ m ∈ v, ({ defaultConfig with force_to_top := ["z"] } : Config).force_to_top.contains
        (strLower m) = false) :=
  c7_force_to_top_order { defaultConfig with force_to_top := ["z"] } ["a", "z"]

theorem parseLoop_importIndex_mono (cfg : Config) (pm : String → Option Nat) :
    ∀ (fuel : Nat) (st : PState) (lines : List String) (st2 : PState),
      parseLoop cfg pm fuel st lines = some st2 → st.importIndex.isSome = true →
      st2.importIndex.isSome = true := by
  intro fuel
  induction fuel with
  | zero =>
      intro st lines st2 h hs
      cases lines with
      | nil =>
          simp only [parseLoop] at h
          cases h
          exact hs
      | cons line rest =>
          simp only [parseLoop] at h
          exact Option.noConfusion h
  | succ f ih =>
      intro st lines st2 h hs
      cases lines with
      | nil =>
          simp only [parseLoop] at h
          cases h
          exact hs
      | cons line rest =>
          simp only [parseLoop] at h
          split at h
          · exact ih _ rest st2 h hs
          · split at h
            · exact ih _ rest st2 h hs
            · split at h
              · exact Option.noConfusion h
              · split at h
                · exact Option.noConfusion h
                · split at h
                  · exact Option.noConfusion h
                  · refine ih _ _ st2 h ?_
                    cases hidx : st.importIndex <;> simp

theorem parseLoop_no_import_outLines (cfg : Config) (pm : String → Option Nat) :
    ∀ (fuel : Nat) (st : PState) (lines : List String) (st2 : PState),
      parseLoop cfg pm fuel st lines = some st2 → st2.importIndex.isNone = true →
      st2.outLines = st.outLines ++ lines := by
  intro fuel
  induction fuel with
  | zero =>
      intro st lines st2 h hn
      cases lines with
      | nil =>
          simp only [parseLoop] at h
          cases h
          simp
      | cons line rest =>
          simp only [parseLoop] at h
          exact Option.noConfusion h
  | succ f ih =>
      intro st lines st2 h hn
      cases lines with
      | nil =>
          simp only [parseLoop] at h
          cases h
          simp
      | cons line rest =>
          simp only [parseLoop] at h
          split at h
          · have h2 := ih _ rest st2 h hn
            simpa [List.append_assoc] using h2
          · split at h
            · have h2 := ih _ rest st2 h hn
              simpa [List.append_assoc] using h2
            · split at h
              · exact Option.noConfusion h
              · split at h
                · exact Option.noConfusion h
                · split at h
                  · exact Option.noConfusion h
                  · have hsome : st2.importIndex.isSome = true := by
                      refine parseLoop_importIndex_mono cfg pm f _ _ st2 h ?_
                      cases hidx : st.importIndex <;> simp
                    rw [Option.isNone_iff_eq_none] at hn
                    rw [hn] at hsome
                    simp at hsome

/-- C3 amended: when the parse pass detects no import statement, the engine
reproduces its input lines (with any configured `add_imports` appended, also
undetected) except that trailing whitespace-only lines are dropped and exactly
one final newline is emitted; in particular, an input whose last line is
non-blank and that ends with exactly one newline is reproduced byte for byte,
but other inputs are normalized (`c3_counterexample`). -/
theorem c3_no_import_passthrough (cfg : Config) (pm : String → Option Nat) (text : String)
    (hmk : strContains ("isort:" ++ "skip_file") text = false)
    (hni : noImportFound cfg pm text = true) :
    sortImports cfg pm text =
      some (joinNl (trimTrailingBlanks (splitNlGo [] text.data ++ cfg.add_imports) ++ [""])) := by
  unfold sortImports
  rw [hmk]
  simp only [Bool.false_eq_true, if_false]
  unfold noImportFound at hni
  cases hp : parseOf cfg pm text with
  | none => rw [hp] at hni; simp at hni
  | some st =>
      rw [hp] at hni
      have hnone : st.importIndex = none := Option.isNone_iff_eq_none.mp hni
      have hout : st.outLines = splitNlGo [] text.data ++ cfg.add_imports := by
        have h2 : parseLoop cfg pm ((splitNlGo [] text.data ++ cfg.add_imports).length + 1)
            initState (splitNlGo [] text.data ++ cfg.add_imports) = some st := hp
        have h3 := parseLoop_no_import_outLines cfg pm _ initState _ st h2 hni
        simpa [initState] using h3
      simp [hnone, hout]

/-- C3 as stated is false: the input `x = 1` contains no import statement,
yet the engine's output gains a trailing newline and differs from the input. -/
theorem c3_counterexample :
    noImportFound defaultConfig noProbe "x = 1" = true ∧
    sortImports defaultConfig noProbe "x = 1" = some "x = 1\n" ∧
    ("x = 1\n" : String) ≠ "x = 1" := by
  decide

/-- A concrete instance of the amended pass-through theorem. -/
theorem c3_witness :
    sortImports defaultConfig noProbe "y = 2\n" =
      some (joinNl (trimTrailingBlanks
        (splitNlGo [] ("y = 2\n" : String).data ++ defaultConfig.add_imports) ++ [""])) :=
  c3_no_import_passthrough defaultConfig noProbe "y = 2\n" (by decide) (by decide)

theorem foldl_append_eq_flatten (f : SectionKey → List String) :
    ∀ (l : List SectionKey) (init : List String),
      l.foldl (fun out s => out ++ f s) init = init ++ (l.map f).flatten
  | [], init => by simp
  | s :: l, init => by
      simp only [List.foldl_cons, List.map_cons, List.flatten_cons]
      rw [foldl_append_eq_flatten f l (init ++ f s)]
      simp [List.append_assoc]

theorem formatRaw_eq_flatten (cfg : Config) (agg : Agg) (am : List (String × String)) :
    formatRaw cfg agg am =
      ((sectionList cfg).map (fun s => sectionChunk cfg am (agg s))).flatten := by
  unfold formatRaw
  simpa using foldl_append_eq_flatten (fun s => sectionChunk cfg am (agg s)) (sectionList cfg) []

theorem isBlankStr_append (a b : String) :
    isBlankStr (a ++ b) = (isBlankStr a && isBlankStr b) := by
  simp [isBlankStr, String.data_append, List.all_append]

theorem isBlank_of_headStr (p t : String) (hp : isBlankStr p = false) :
    isBlankStr (p ++ t) = false := by
  rw [isBlankStr_append, hp]
  rfl

theorem fromJoin_not_blank (start : String) (hs : isBlankStr start = false) :
    ∀ (rs : List String) (acc : String), isBlankStr acc = false →
      isBlankStr (rs.foldl (fun acc s => acc ++ "\n" ++ start ++ s) acc) = false
  | [], acc, ha => ha
  | r :: rs, acc, ha => by
      simp only [List.foldl_cons]
      exact fromJoin_not_blank start hs rs _
        (isBlank_of_headStr _ _ (isBlank_of_headStr _ _ (isBlank_of_headStr _ _ ha)))

theorem fromAliasLines_not_blank (am : List (String × String)) (start m : String)
    (filtered : List String) (hs : isBlankStr start = false) :
    ∀ l ∈ fromAliasLines am start m filtered, isBlankStr l = false := by
  intro l hl
  rcases List.mem_filterMap.mp hl with ⟨sy, _, hf⟩
  rcases Option.map_eq_some'.mp hf with ⟨a, _, rfl⟩
  exact isBlank_of_headStr _ _ (isBlank_of_headStr _ _ (isBlank_of_headStr _ _ hs))

theorem fromRemainingLines_not_blank (start : String) (remaining : List String)
    (hs : isBlankStr start = false) :
    ∀ l ∈ fromRemainingLines start remaining, isBlankStr l = false := by
  intro l hl
  unfold fromRemainingLines at hl
  split at hl
  · simp at hl
  · split at hl
    · have hleq : l = start ++ "*" := by simpa using hl
      subst hleq
      exact isBlank_of_headStr _ _ hs
    · have hleq := List.mem_singleton.mp hl
      subst hleq
      exact fromJoin_not_blank start hs _ _ (isBlank_of_headStr _ _ hs)

theorem fromModuleLines_not_blank (cfg : Config) (am : List (String × String))
    (m : String) (syms : List String) :
    ∀ l ∈ fromModuleLines cfg am m syms, isBlankStr l = false := by
  intro l hl
  have hfrom : isBlankStr ("from " ++ m ++ " import ") = false :=
    isBlank_of_headStr _ _ (isBlank_of_headStr _ _ (by decide))
  simp only [fromModuleLines] at hl
  rcases List.mem_append.mp hl with hx | hx
  · exact fromAliasLines_not_blank am _ m _ hfrom l hx
  · exact fromRemainingLines_not_blank _ _ hfrom l hx

theorem straightLinesOf_not_blank (cfg : Config) (am : List (String × String)) (b : Bucket) :
    ∀ l ∈ straightLinesOf cfg am b, isBlankStr l = false := by
  intro l hl
  unfold straightLinesOf at hl
  rcases List.mem_filterMap.mp hl with ⟨m, _, hf⟩
  split at hf
  · exact Option.noConfusion hf
  · split at hf
    · cases hf
      exact isBlank_of_headStr _ _ (isBlank_of_headStr _ _ (isBlank_of_headStr _ _ (by decide)))
    · cases hf
      exact isBlank_of_headStr _ _ (by decide)

theorem fromLinesOf_not_blank (cfg : Config) (am : List (String × String)) (b : Bucket) :
    ∀ l ∈ fromLinesOf cfg am b, isBlankStr l = false := by
  unfold fromLinesOf
  generalize sortedByKey cfg (b.fromMap.map Prod.fst) = ms
  induction ms with
  | nil => intro l hl; simp at hl
  | cons m ms ih =>
      intro l hl
      simp only [List.foldr_cons] at hl
      rcases List.mem_append.mp hl with hx | hx
      · split at hx
        · simp at hx
        · exact fromModuleLines_not_blank cfg am m _ l hx
      · exact ih l hx

theorem sectionBody_not_blank (cfg : Config) (am : List (String × String)) (b : Bucket) :
    ∀ l ∈ sectionBody cfg am b, isBlankStr l = false := by
  intro l hl
  rcases List.mem_append.mp hl with hx | hx
  · exact straightLinesOf_not_blank cfg am b l hx
  · exact fromLinesOf_not_blank cfg am b l hx

theorem sectionChunk_of_ne (cfg : Config) (am : List (String × String)) (b : Bucket)
    (hne : sectionBody cfg am b ≠ []) :
    sectionChunk cfg am b = sectionBody cfg am b ++ [""] := by
  unfold sectionChunk
  have hor : sortedByKey cfg b.straight ≠ [] ∨
      sortedByKey cfg (b.fromMap.map Prod.fst) ≠ [] := by
    by_contra hcon
    push_neg at hcon
    apply hne
    unfold sectionBody straightLinesOf fromLinesOf
    rw [hcon.1, hcon.2]
    simp
  have hcond : (!(sortedByKey cfg b.straight).isEmpty ||
      !(sortedByKey cfg (b.fromMap.map Prod.fst)).isEmpty) = true := by
    rcases hor with h | h
    · simp [List.isEmpty_iff, h]
    · simp [List.isEmpty_iff, h]
  rw [hcond]
  simp

theorem flatten_map_decomp (f : SectionKey → List String) :
    ∀ (l : List SectionKey) (i j : Nat), ∀ hij : i < j, ∀ hj : j < l.length,
      (l.map f).flatten =
        ((l.take i).map f).flatten ++ f (l.get ⟨i, by omega⟩) ++
        (((l.drop (i + 1)).take (j - i - 1)).map f).flatten ++
        f (l.get ⟨j, hj⟩) ++ ((l.drop (j + 1)).map f).flatten := by
  intro l i j hij hj
  have hi : i < l.length := by omega
  conv_lhs => rw [← List.take_append_drop i l]
  rw [List.map_append, List.flatten_append, List.drop_eq_getElem_cons hi, List.map_cons,
    List.flatten_cons]
  conv_lhs => rw [← List.take_append_drop (j - i - 1) (l.drop (i + 1))]
  rw [List.map_append, List.flatten_append, List.drop_drop]
  have hjj : i + 1 + (j - i - 1) = j := by omega
  rw [hjj, List.drop_eq_getElem_cons hj, List.map_cons, List.flatten_cons]
  simp [List.append_assoc]

/-- C9: the output list `_add_formatted_imports` builds is the concatenation,
over the section keys in their fixed order (the five standard sections, then
the forced-separate sections in configuration order), of each section's chunk,
with trailing blank elements trimmed; a section whose body is non-empty
contributes its body (none of whose lines is blank) followed by exactly one
blank separator element; and for any two positions `i < j` of the section
order the flattened output is literally the earlier chunks, then section `i`'s
chunk, then the chunks between, then section `j`'s chunk, then the rest — so
every line of an earlier section precedes every line of a later one. -/
theorem c9_section_layout (cfg : Config) (agg : Agg) (am : List (String × String)) :
    (formatTrimmed cfg agg am =
      trimTrailingBlanks (((sectionList cfg).map (fun s => sectionChunk cfg am (agg s))).flatten)) ∧
    (∀ s : SectionKey, sectionBody cfg am (agg s) ≠ [] →
      sectionChunk cfg am (agg s) = sectionBody cfg am (agg s) ++ [""] ∧
      ∀ l ∈ sectionBody cfg am (agg s), isBlankStr l = false) ∧
    (∀ i j : Nat, ∀ hij : i < j, ∀ hj : j < (sectionList cfg).length,
      ((sectionList cfg).map (fun s => sectionChunk cfg am (agg s))).flatten =
        (((sectionList cfg).take i).map (fun s => sectionChunk cfg am (agg s))).flatten ++
        sectionChunk cfg am (agg ((sectionList cfg).get ⟨i, by omega⟩)) ++
        ((((sectionList cfg).drop (i + 1)).take (j - i - 1)).map
          (fun s => sectionChunk cfg am (agg s))).flatten ++
        sectionChunk cfg am (agg ((sectionList cfg).get ⟨j, hj⟩)) ++
        (((sectionList cfg).drop (j + 1)).map (fun s => sectionChunk cfg am (agg s))).flatten) := by
  refine ⟨?_, ?_, ?_⟩
  · unfold formatTrimmed
    rw [formatRaw_eq_flatten]
  · intro s hne
    exact ⟨sectionChunk_of_ne cfg am (agg s) hne, sectionBody_not_blank cfg am (agg s)⟩
  · intro i j hij hj
    exact flatten_map_decomp (fun s => sectionChunk cfg am (agg s)) (sectionList cfg) i j hij hj

end Isort
